import Mathlib

/-!
Verification development for the tmux-sessionizer directory-discovery engine.

The repository contains two parallel implementations of the discovery core:
* `src/main.rs` embeds its own `SearchPath`/`Settings`/`Config` with a
  sequential walker (`MainConfig` below), and
* `src/config.rs` holds the library version with a rayon-parallel walker
  (`Config` below), extended with `show_hidden` support.

Both are embedded here.  Filesystem reads are modelled by an explicit `FS`
record; Rust panics are modelled as `Option.none` results.  Rayon's
work-stealing fan-out is modelled sequentially (it differs from the real
execution only in the order of the combined list, never in its elements).
-/

namespace Tms

/-- The error enum of `src/error.rs` (`FileError`, `EnvError`, `MissingHome`). -/
inductive Error where
  | FileError (msg : String)
  | EnvError (msg : String)
  | MissingHome
deriving DecidableEq, Repr

/-- Modelled from the spec: the process environment read by path expansion
(`shellexpand::full` is an external crate, not part of this repository's
sources).  Spec §4.1: expansion resolves a leading `~` (or `~user`) to a home
directory and substitutes `$VAR` / `$\x7bVAR\x7d` tokens from the process
environment. -/
structure Env where
  vars : String → Option String
  home : Option String
  userHome : String → Option String

/-- Opening-brace character, kept out of literals. -/
def lbrace : Char := Char.ofNat 123

/-- Closing-brace character, kept out of literals. -/
def rbrace : Char := Char.ofNat 125

/-- Characters allowed in a bare `$VAR` environment-variable name. -/
def isVarChar (c : Char) : Bool := c.isAlphanum || c = '_'

/-- Modelled from the spec: resolution of a leading `~` or `~user` to the
appropriate home directory (spec §4.1).  Failure is reported as `EnvError`,
matching `SearchPath::expand`'s `map_err` which converts every expansion
failure into `Error::EnvError`. -/
def expandTilde (env : Env) (s : String) : Except Error String :=
  match s.data with
  | '~' :: rest =>
    let user := rest.takeWhile (· ≠ '/')
    let tail := rest.dropWhile (· ≠ '/')
    if user.isEmpty then
      match env.home with
      | some h => .ok (String.mk (h.data ++ tail))
      | none => .error (.EnvError "home directory could not be resolved")
    else
      match env.userHome (String.mk user) with
      | some h => .ok (String.mk (h.data ++ tail))
      | none => .error (.EnvError (String.mk ('~' :: user)))
  | _ => .ok s

/-- Helper: dropping a prefix never lengthens a list (termination measure for
the token scanner). -/
theorem length_dropWhile_le (p : Char → Bool) (l : List Char) :
    (l.dropWhile p).length ≤ l.length := by
  induction l with
  | nil => simp [List.dropWhile]
  | cons c rest ih =>
    by_cases h : p c = true
    · simp only [List.dropWhile, h]
      exact Nat.le_succ_of_le ih
    · simp only [List.dropWhile, h]
      simp

/-- Modelled from the spec: substitution of `$VAR` and braced variable tokens
using the process environment (spec §4.1); an undefined variable yields an
`EnvError` carrying the offending token.  A `$` that introduces no token is
kept as-is. -/
def expandVarsAux (env : Env) (l : List Char) : Except Error (List Char) :=
  match l with
  | [] => .ok []
  | '$' :: rest =>
    match rest with
    | c :: rest2 =>
      if c = lbrace then
        match h : rest2.dropWhile (· ≠ rbrace) with
        | _ :: tail =>
          match env.vars (String.mk (rest2.takeWhile (· ≠ rbrace))) with
          | some v =>
            match expandVarsAux env tail with
            | .ok t => .ok (v.data ++ t)
            | .error e => .error e
          | none => .error (.EnvError (String.mk (rest2.takeWhile (· ≠ rbrace))))
        | [] => .error (.EnvError (String.mk (rest2.takeWhile (· ≠ rbrace))))
      else if isVarChar c then
        match env.vars (String.mk ((c :: rest2).takeWhile isVarChar)) with
        | some v =>
          match expandVarsAux env ((c :: rest2).dropWhile isVarChar) with
          | .ok t => .ok (v.data ++ t)
          | .error e => .error e
        | none => .error (.EnvError (String.mk ((c :: rest2).takeWhile isVarChar)))
      else
        match expandVarsAux env (c :: rest2) with
        | .ok t => .ok ('$' :: t)
        | .error e => .error e
    | [] => .ok ['$']
  | c :: rest =>
    match expandVarsAux env rest with
    | .ok t => .ok (c :: t)
    | .error e => .error e
termination_by l.length
decreasing_by
  · have h1 : (rest2.dropWhile (· ≠ rbrace)).length ≤ rest2.length :=
      length_dropWhile_le _ _
    rw [h] at h1
    simp at h1 ⊢
    omega
  · have h1 : (rest2.dropWhile isVarChar).length ≤ rest2.length :=
      length_dropWhile_le _ _
    simp [List.dropWhile, *] at h1 ⊢
    omega
  · simp
  · simp

/-- Modelled from the spec: `shellexpand::full` — home-directory resolution
followed by environment-variable substitution (spec §4.1).  Matches the
`expand` closure in `SearchPath::expand`, which maps any failure to
`Error::EnvError`. -/
def expandStr (env : Env) (s : String) : Except Error String :=
  match expandTilde env s with
  | .error e => .error e
  | .ok t =>
    match expandVarsAux env t.data with
    | .ok r => .ok (String.mk r)
    | .error e => .error e

/-- True when the character list contains a substitutable `$`-token: a `$`
followed by an opening brace or a variable character. -/
def hasVarRef : List Char → Bool
  | [] => false
  | c :: rest =>
    (c = '$' && (match rest with
      | c2 :: _ => c2 = lbrace || isVarChar c2
      | [] => false)) || hasVarRef rest

/-- A path string with no further substitutable tokens: no leading `~` and no
`$VAR` / braced-variable reference. -/
def noSubstTokens (s : String) : Bool :=
  (match s.data with
   | '~' :: _ => false
   | _ => true) && !(hasVarRef s.data)

/-- Unfolding equation for `hasVarRef` on a cons cell. -/
theorem hasVarRef_cons (c : Char) (rest : List Char) :
    hasVarRef (c :: rest) =
      ((c = '$' && (match rest with
        | c2 :: _ => c2 = lbrace || isVarChar c2
        | [] => false)) || hasVarRef rest) := rfl

/-- A character list without `$`-tokens is left unchanged by variable
substitution. -/
theorem expandVarsAux_no_ref (env : Env) (l : List Char) (h : hasVarRef l = false) :
    expandVarsAux env l = .ok l := by
  induction l using expandVarsAux.induct env with
  | case1 => simp [expandVarsAux]
  | case2 rest2 hd tl hdw v hv t hok ih => exfalso; simp [hasVarRef] at h
  | case3 rest2 hd tl hdw v hv e herr ih => exfalso; simp [hasVarRef] at h
  | case4 rest2 hd tl hdw hv => exfalso; simp [hasVarRef] at h
  | case5 rest2 hdw => exfalso; simp [hasVarRef] at h
  | case6 c rest2 hcl hcv v hv t hok ih => exfalso; simp [hasVarRef, hcv] at h
  | case7 c rest2 hcl hcv v hv e herr ih => exfalso; simp [hasVarRef, hcv] at h
  | case8 c rest2 hcl hcv hv => exfalso; simp [hasVarRef, hcv] at h
  | case9 c rest2 hcl hcv t hok ih =>
    rw [hasVarRef_cons] at h
    simp [hcl, hcv] at h
    rw [expandVarsAux]
    simp [hcl, hcv, ih h]
  | case10 c rest2 hcl hcv e herr ih =>
    rw [hasVarRef_cons] at h
    simp [hcl, hcv] at h
    rw [expandVarsAux]
    simp [hcl, hcv, ih h]
  | case11 => simp [expandVarsAux]
  | case12 c rest hc t hok ih =>
    rw [hasVarRef_cons] at h
    simp [hc] at h
    rw [expandVarsAux]
    · simp [hc, ih h.2]
    · exact hc
  | case13 c rest hc e herr ih =>
    rw [hasVarRef_cons] at h
    simp [hc] at h
    rw [expandVarsAux]
    · simp [hc, ih h.2]
    · exact hc

/-- A string without a leading `~` is left unchanged by tilde expansion. -/
theorem expandTilde_no_tilde (env : Env) (s : String)
    (h : (match s.data with | '~' :: _ => false | _ => true) = true) :
    expandTilde env s = .ok s := by
  unfold expandTilde
  split
  · next heq =>
    rw [heq] at h
    simp at h
  · rfl

/-- A fully-expanded string is a fixed point of expansion. -/
theorem expandStr_fixed (env : Env) (s : String) (h : noSubstTokens s = true) :
    expandStr env s = .ok s := by
  have h12 := h
  simp only [noSubstTokens, Bool.and_eq_true, Bool.not_eq_true'] at h12
  unfold expandStr
  rw [expandTilde_no_tilde env s h12.1]
  dsimp only
  rw [expandVarsAux_no_ref env s.data h12.2]

/-- `SearchPath` of `src/config.rs`: `Simple(String)` or
`Complex \x7b path, depth, show_hidden \x7d`. -/
inductive SearchPath where
  | Simple (s : String)
  | Complex (path : String) (depth : Option Nat) (show_hidden : Option Bool)
deriving DecidableEq, Repr

/-- `SearchPath::depth` (config.rs:28-33): explicit depth else the default. -/
def SearchPath.depth (sp : SearchPath) (dflt : Nat) : Nat :=
  match sp with
  | .Simple _ => dflt
  | .Complex _ depth _ => depth.getD dflt

/-- `SearchPath::path` (config.rs:35-40). -/
def SearchPath.path (sp : SearchPath) : String :=
  match sp with
  | .Simple s => s
  | .Complex path _ _ => path

/-- `SearchPath::show_hidden` (config.rs:63-68): `Simple` is always `false`,
`Complex` defaults to `false`. -/
def SearchPath.show_hidden (sp : SearchPath) : Bool :=
  match sp with
  | .Simple _ => false
  | .Complex _ _ sh => sh.getD false

/-- `SearchPath::expand` (config.rs:42-61): expand the path field, keep the
other fields, return a structurally identical variant. -/
def SearchPath.expand (env : Env) (sp : SearchPath) : Except Error SearchPath :=
  match sp with
  | .Simple s =>
    match expandStr env s with
    | .ok s' => .ok (.Simple s')
    | .error e => .error e
  | .Complex path depth sh =>
    match expandStr env path with
    | .ok p' => .ok (.Complex p' depth sh)
    | .error e => .error e

/-- `SearchPath` as embedded in `src/main.rs` (lines 15-20): the older copy,
without a `show_hidden` field. -/
inductive MainSearchPath where
  | Simple (s : String)
  | Complex (path : String) (depth : Option Nat)
deriving DecidableEq, Repr

/-- `SearchPath::path` of main.rs (lines 29-34). -/
def MainSearchPath.path (sp : MainSearchPath) : String :=
  match sp with
  | .Simple s => s
  | .Complex path _ => path

/-- `SearchPath::expand` of main.rs (lines 36-50). -/
def MainSearchPath.expand (env : Env) (sp : MainSearchPath) : Except Error MainSearchPath :=
  match sp with
  | .Simple s =>
    match expandStr env s with
    | .ok s' => .ok (.Simple s')
    | .error e => .error e
  | .Complex path depth =>
    match expandStr env path with
    | .ok p' => .ok (.Complex p' depth)
    | .error e => .error e

/-- `Settings` (config.rs:11-15 and main.rs:53-57): the process-wide defaults.
`default_depth` is a `u8`; modelled as `Nat` (the only arithmetic on depths is
`depth + 1`, guarded by `depth < max_depth ≤ 255`, so no overflow can occur). -/
structure Settings where
  default_depth : Nat
  picker : Option String
deriving DecidableEq, Repr

/-! ## Filesystem model

The walkers consume the filesystem through `Path::read_dir` (which can fail),
`DirEntry::file_name`, `DirEntry::file_type` (which can fail per entry) and
`Path::exists`.  Paths are modelled as lists of components; a directory entry's
path is `parent ++ [name]` (`e.path()` = parent joined with the file name).
`readDir p = none` models a failing `read_dir` call; an entry `none` inside a
listing models an `Err` item of the `ReadDir` iterator.  Entry names produced
by the OS are never empty; the model does not rely on that fact. -/

/-- Outcome of `DirEntry::file_type` combined with `FileType::is_dir`. -/
inductive FType where
  | dir
  | notDir
  | typeErr
deriving DecidableEq, Repr

/-- `de.file_type().map(|ft| ft.is_dir()).unwrap_or(false)` (config.rs:127-129,
main.rs:102): a failing `file_type` call counts as "not a directory". -/
def is_dir (ft : FType) : Bool :=
  match ft with
  | .dir => true
  | .notDir => false
  | .typeErr => false

/-- The filesystem as seen by one run: existence checks and directory
listings. -/
structure FS where
  pathExists : List String → Bool
  readDir : List String → Option (List (Option (String × FType)))

/-- `is_hidden_path` (config.rs:71-76): the file name's first byte is `b'.'`
(`.` is ASCII, so this is exactly "first character is `'.'`"); a path without
a file name yields `false` via `unwrap_or(false)`. -/
def is_hidden_path (p : List String) : Bool :=
  match p.getLast? with
  | some n =>
    match n.data with
    | c :: _ => c = '.'
    | [] => false
  | none => false

/-- `map_while(Result::ok)` (config.rs:134): keep the longest prefix of `Ok`
entries, stopping at the first errored entry. -/
def takeOks : List (Option α) → List α
  | some a :: rest => a :: takeOks rest
  | _ => []

/-- `.flatten()` over an iterator of `Result`s (main.rs:101): skip errored
entries, keep every `Ok` one. -/
def skipErrs (l : List (Option α)) : List α := l.filterMap id

/-- Flat-map with panic propagation: `flat_map` + `collect`, where a panic in
any element (modelled `none`) aborts the whole collection (rayon propagates a
worker's panic to the collecting caller; sequentially the panic just
unwinds). -/
def optMapJoin (f : α → Option (List β)) : List α → Option (List β)
  | [] => some []
  | a :: l =>
    match f a, optMapJoin f l with
    | some ys, some zs => some (ys ++ zs)
    | _, _ => none

/-- `collect::<Result<Vec<_>, _>>()` (main.rs:116-120): stop at the first
error. -/
def collectExcept (f : α → Except ε β) : List α → Except ε (List β)
  | [] => .ok []
  | a :: l =>
    match f a with
    | .error e => .error e
    | .ok b =>
      match collectExcept f l with
      | .error e => .error e
      | .ok bs => .ok (b :: bs)

/-- `Config` of `src/config.rs` (lines 78-82). -/
structure Config where
  settings : Settings
  paths : List SearchPath

/-- `Config::find_dir_recursive` of `src/config.rs` (lines 117-161), the
rayon-parallel walker, modelled sequentially (`par_bridge` only changes the
order of the collected list, not its elements; a worker panic aborts the
collect either way):
* `max_depth == 0`: return `vec![path]` without touching the filesystem;
* `path.read_dir().unwrap()`: a failing listing panics (`none`);
* `map_while(Result::ok)`: `takeOks`;
* filter `is_dir`, then the hidden filter (`show_hidden` short-circuits it);
* `flat_map`: entry path, plus — when `depth < max_depth` — the recursive
  results chained after it (`once(path).chain(...)`). -/
def Config.find_dir_recursive (fs : FS) (show_hidden : Bool) (path : List String)
    (depth maxDepth : Nat) : Option (List (List String)) :=
  if maxDepth = 0 then
    some [path]
  else
    match fs.readDir path with
    | none => none
    | some items =>
      optMapJoin
        (fun e =>
          if h : depth < maxDepth then
            match Config.find_dir_recursive fs show_hidden (path ++ [e.1]) (depth + 1) maxDepth with
            | some rest => some ((path ++ [e.1]) :: rest)
            | none => none
          else
            some [path ++ [e.1]])
        (((takeOks items).filter (fun e => is_dir e.2)).filter
          (fun e => if show_hidden then true else !(is_hidden_path (path ++ [e.1]))))
termination_by maxDepth - depth
decreasing_by omega

/-- `Config::find_dirs` of `src/config.rs` (lines 163-175): expand each search
path (`path.unwrap()` — an expansion error panics), `panic!` when the expanded
path does not exist, walk each root starting at depth 1, flatten and wrap in
`Ok`.  The `Result` is only ever `Ok`; every failure is a panic (`none`). -/
def Config.find_dirs (env : Env) (fs : FS) (cfg : Config) :
    Option (Except Error (List (List String))) :=
  match optMapJoin
      (fun sp =>
        match SearchPath.expand env sp with
        | .error _ => none
        | .ok p =>
          if fs.pathExists [p.path] then
            Config.find_dir_recursive fs p.show_hidden [p.path] 1
              (p.depth cfg.settings.default_depth)
          else none)
      cfg.paths with
  | some ls => some (.ok ls)
  | none => none

/-- `Config` as embedded in `src/main.rs` (lines 59-63). -/
structure MainConfig where
  settings : Settings
  paths : List MainSearchPath

/-- `Config::find_dir_recursive` of `src/main.rs` (lines 98-113), the
sequential walker: no `max_depth == 0` case, no hidden filter;
`read_dir().unwrap()` panics on a failing listing; `.flatten()` skips errored
entries; each directory entry is followed by its recursive results when
`depth < max_depth`. -/
def MainConfig.find_dir_recursive (fs : FS) (path : List String)
    (depth maxDepth : Nat) : Option (List (List String)) :=
  match fs.readDir path with
  | none => none
  | some items =>
    optMapJoin
      (fun e =>
        if h : depth < maxDepth then
          match MainConfig.find_dir_recursive fs (path ++ [e.1]) (depth + 1) maxDepth with
          | some rest => some ((path ++ [e.1]) :: rest)
          | none => none
        else
          some [path ++ [e.1]])
      ((skipErrs items).filter (fun e => is_dir e.2))
termination_by maxDepth - depth
decreasing_by omega

/-- `Config::find_dirs` of `src/main.rs` (lines 115-152): expand all paths
first, propagating the first expansion error as the run's `Err`; then walk
each root in order, skipping (`continue`) roots that do not exist, with the
effective depth `depth.unwrap_or(default_depth)` (`Simple` uses the
default). -/
def MainConfig.find_dirs (env : Env) (fs : FS) (cfg : MainConfig) :
    Option (Except Error (List (List String))) :=
  match collectExcept (MainSearchPath.expand env) cfg.paths with
  | .error e => some (.error e)
  | .ok ps =>
    match optMapJoin
        (fun p =>
          match p with
          | MainSearchPath.Simple s =>
            if fs.pathExists [s] then
              MainConfig.find_dir_recursive fs [s] 1 cfg.settings.default_depth
            else some []
          | MainSearchPath.Complex path depth =>
            if fs.pathExists [path] then
              MainConfig.find_dir_recursive fs [path] 1 (depth.getD cfg.settings.default_depth)
            else some [])
        ps with
    | some ls => some (.ok ls)
    | none => none

/-! ## Picker-output handling and session naming (`src/main.rs`) -/

/-- A UTF-8 continuation byte (`0x80..0xBF`). -/
def contB (b : Nat) : Bool := 0x80 ≤ b && b < 0xC0

/-- UTF-8 validity of a byte sequence, as checked by `String::from_utf8`
(rejecting overlong encodings, surrogates and values above `U+10FFFF`). -/
def utf8Valid : List Nat → Bool
  | [] => true
  | b :: rest =>
    if b < 0x80 then utf8Valid rest
    else
      match rest with
      | c1 :: r1 =>
        if 0xC2 ≤ b && b ≤ 0xDF then contB c1 && utf8Valid r1
        else
          match r1 with
          | c2 :: r2 =>
            if b = 0xE0 then (0xA0 ≤ c1 && c1 ≤ 0xBF) && contB c2 && utf8Valid r2
            else if (0xE1 ≤ b && b ≤ 0xEC) || b = 0xEE || b = 0xEF then
              contB c1 && contB c2 && utf8Valid r2
            else if b = 0xED then (0x80 ≤ c1 && c1 ≤ 0x9F) && contB c2 && utf8Valid r2
            else
              match r2 with
              | c3 :: r3 =>
                if b = 0xF0 then (0x90 ≤ c1 && c1 ≤ 0xBF) && contB c2 && contB c3 && utf8Valid r3
                else if 0xF1 ≤ b && b ≤ 0xF3 then
                  contB c1 && contB c2 && contB c3 && utf8Valid r3
                else if b = 0xF4 then (0x80 ≤ c1 && c1 ≤ 0x8F) && contB c2 && contB c3 && utf8Valid r3
                else false
              | [] => false
          | [] => false
      | [] => false

/-- `str::is_char_boundary`: index 0, the length, or a byte that is not a
continuation byte. -/
def is_char_boundary (s : List Nat) (i : Nat) : Bool :=
  if i = 0 then true
  else
    match s.get? i with
    | some b => b < 0x80 || 0xC0 ≤ b
    | none => i = s.length

/-- `run_finder` (main.rs:155-199), modelled from the point where the picker
subprocess has produced an exit status and its stdout bytes (spawning the
picker and feeding its stdin are external-process I/O).  On a non-success
status it returns `None`; on success it decodes stdout as UTF-8 (`expect`
panics on invalid bytes) and slices off the final byte with
`&s[..s.len() - 1]`, which panics when stdout is empty (index underflow /
out of bounds) and when `s.len() - 1` is not a character boundary.  The outer
`none` models a panic. -/
def run_finder (success : Bool) (stdout : List Nat) : Option (Option (List Nat)) :=
  if success then
    if utf8Valid stdout then
      if stdout.length = 0 then none
      else if is_char_boundary stdout (stdout.length - 1) then
        some (some (stdout.take (stdout.length - 1)))
      else none
    else none
  else some none

/-- `get_dir_name` (main.rs:201-208): the path's final component (a `.expect`
panic, modelled `none`, when there is none) with every `'.'` replaced by
`'_'` (`str::replace` with a one-character pattern rewrites exactly those
characters). -/
def get_dir_name (dir : List String) : Option String :=
  match dir.getLast? with
  | some comp => some (String.mk (comp.data.map (fun c => if c = '.' then '_' else c)))
  | none => none

/-- `main` (main.rs:222-232): the session name handed to every tmux command
(`has_session`, `new_session`, `switch`, `attach`) is `get_dir_name` of the
selected path. -/
def tmux_session_name (selected : List String) : Option String :=
  get_dir_name selected

/-! ## Helper lemmas -/

/-- Every element of a successful `optMapJoin` comes from some input
element's successful image. -/
theorem optMapJoin_mem {f : α → Option (List β)} :
    ∀ {l : List α} {out : List β}, optMapJoin f l = some out →
      ∀ {p : β}, p ∈ out → ∃ a, a ∈ l ∧ ∃ ys, f a = some ys ∧ p ∈ ys := by
  intro l
  induction l with
  | nil =>
    intro out hout p hp
    simp [optMapJoin] at hout
    subst hout
    simp at hp
  | cons a l ih =>
    intro out hout p hp
    rw [optMapJoin] at hout
    cases hfa : f a with
    | none => rw [hfa] at hout; simp at hout
    | some ys =>
      cases hml : optMapJoin f l with
      | none => rw [hfa, hml] at hout; simp at hout
      | some zs =>
        rw [hfa, hml] at hout
        simp at hout
        subst hout
        rcases List.mem_append.mp hp with hy | hz
        · exact ⟨a, by simp, ys, hfa, hy⟩
        · obtain ⟨b, hb, ys', hys', hp'⟩ := ih hml hz
          exact ⟨b, by simp [hb], ys', hys', hp'⟩

/-- In a successful `optMapJoin`, each input element's image succeeded and is
contained in the output. -/
theorem optMapJoin_sub {f : α → Option (List β)} :
    ∀ {l : List α} {out : List β}, optMapJoin f l = some out →
      ∀ {a : α}, a ∈ l → ∃ ys, f a = some ys ∧ ∀ {p : β}, p ∈ ys → p ∈ out := by
  intro l
  induction l with
  | nil =>
    intro out _ a ha
    simp at ha
  | cons b l ih =>
    intro out hout a ha
    rw [optMapJoin] at hout
    cases hfb : f b with
    | none => rw [hfb] at hout; simp at hout
    | some ys =>
      cases hml : optMapJoin f l with
      | none => rw [hfb, hml] at hout; simp at hout
      | some zs =>
        rw [hfb, hml] at hout
        simp at hout
        subst hout
        rcases List.mem_cons.mp ha with hab | hal
        · subst hab
          exact ⟨ys, hfb, fun hp => List.mem_append.mpr (Or.inl hp)⟩
        · obtain ⟨ys', hys', hsub⟩ := ih hml hal
          exact ⟨ys', hys', fun hp => List.mem_append.mpr (Or.inr (hsub hp))⟩

/-- `optMapJoin` only depends on the images of the list's elements. -/
theorem optMapJoin_congr {f g : α → Option (List β)} :
    ∀ {l : List α}, (∀ a ∈ l, f a = g a) → optMapJoin f l = optMapJoin g l := by
  intro l
  induction l with
  | nil => intro _; rfl
  | cons a l ih =>
    intro h
    rw [optMapJoin, optMapJoin, h a (by simp), ih (fun b hb => h b (by simp [hb]))]

/-- Without errored entries, `map_while(Result::ok)` and `.flatten()` agree. -/
theorem takeOks_eq_skipErrs :
    ∀ {l : List (Option α)}, (∀ it ∈ l, it ≠ none) → takeOks l = skipErrs l := by
  intro l
  induction l with
  | nil => intro _; rfl
  | cons it l ih =>
    intro h
    cases it with
    | none => exact absurd rfl (h none (by simp))
    | some a =>
      rw [takeOks, show skipErrs (some a :: l) = a :: skipErrs l from rfl,
        ih (fun x hx => h x (by simp [hx]))]

/-- The hidden-path test on an entry path checks the entry name. -/
theorem is_hidden_path_append (p : List String) (n : String) :
    is_hidden_path (p ++ [n]) =
      (match n.data with
       | c :: _ => decide (c = '.')
       | [] => false) := by
  rw [is_hidden_path, List.getLast?_concat]

/-- Structure of the parallel walker's output: every produced path properly
extends the walked directory, stays within the remaining depth budget, and
every intermediate directory on the way to a produced path is itself
produced. -/
theorem walk_shape_p :
    ∀ (n : Nat) (fs : FS) (sh : Bool) (depth maxDepth : Nat) (path : List String)
      (out : List (List String)),
      maxDepth - depth ≤ n → maxDepth ≠ 0 →
      Config.find_dir_recursive fs sh path depth maxDepth = some out →
      ∀ p ∈ out, path <+: p ∧ p ≠ path ∧
        p.length ≤ path.length + (maxDepth - depth) + 1 ∧
        (∀ q, path <+: q → q <+: p → q ≠ path → q ∈ out) := by
  intro n
  induction n using Nat.strong_induction_on with
  | _ n ih =>
    intro fs sh depth maxDepth path out hn hmax h p hp
    unfold Config.find_dir_recursive at h
    rw [if_neg hmax] at h
    cases hrd : fs.readDir path with
    | none => rw [hrd] at h; simp at h
    | some items =>
      rw [hrd] at h
      dsimp only at h
      obtain ⟨e, he, ys, hfe, hpys⟩ := optMapJoin_mem h hp
      obtain ⟨ys', hfe', hsub⟩ := optMapJoin_sub h he
      rw [hfe] at hfe'
      injection hfe' with hys
      subst hys
      by_cases hd : depth < maxDepth
      · rw [dif_pos hd] at hfe
        cases hrec : Config.find_dir_recursive fs sh (path ++ [e.1]) (depth + 1) maxDepth with
        | none => rw [hrec] at hfe; simp at hfe
        | some rest =>
          rw [hrec] at hfe
          have hys2 : ys = (path ++ [e.1]) :: rest := (Option.some.inj hfe).symm
          subst hys2
          have hpe : path <+: path ++ [e.1] := List.prefix_append _ _
          have ihrec := ih (maxDepth - (depth + 1)) (by omega) fs sh (depth + 1) maxDepth
            (path ++ [e.1]) rest (le_refl _) hmax hrec
          rcases List.mem_cons.mp hpys with hpe' | hprest
          · subst hpe'
            refine ⟨hpe, by simp, by simp, ?_⟩
            intro q hq1 hq2 hqne
            have hlq : path.length < q.length :=
              lt_of_le_of_ne hq1.length_le (fun heq => hqne (hq1.eq_of_length heq).symm)
            have hql : q.length = (path ++ [e.1]).length := by
              have := hq2.length_le
              simp at this ⊢
              omega
            have : q = path ++ [e.1] := hq2.eq_of_length hql
            rw [this]
            exact hp
          · obtain ⟨hpre, hne, hlen, hcomp⟩ := ihrec p hprest
            have hlower : (path ++ [e.1]).length ≤ p.length := hpre.length_le
            refine ⟨hpe.trans hpre, ?_, ?_, ?_⟩
            · intro hc
              rw [hc] at hlower
              simp at hlower
            · simp at hlen hlower ⊢
              omega
            · intro q hq1 hq2 hqne
              have hlq : path.length < q.length :=
                lt_of_le_of_ne hq1.length_le (fun heq => hqne (hq1.eq_of_length heq).symm)
              by_cases hql : q.length ≤ path.length + 1
              · have hq3 : q <+: path ++ [e.1] :=
                  List.prefix_of_prefix_length_le hq2 hpre (by simp; omega)
                have hqeq : q = path ++ [e.1] := hq3.eq_of_length (by simp; omega)
                rw [hqeq]
                exact hsub (by simp)
              · have hq3 : path ++ [e.1] <+: q :=
                  List.prefix_of_prefix_length_le hpre hq2 (by simp; omega)
                have hqne' : q ≠ path ++ [e.1] := by
                  intro hc
                  rw [hc] at hql
                  simp at hql
                exact hsub (List.mem_cons.mpr (Or.inr (hcomp q hq3 hq2 hqne')))
      · rw [dif_neg hd] at hfe
        have hys2 : ys = [path ++ [e.1]] := (Option.some.inj hfe).symm
        subst hys2
        have hpe' : p = path ++ [e.1] := by simpa using hpys
        subst hpe'
        refine ⟨List.prefix_append _ _, by simp, by simp, ?_⟩
        intro q hq1 hq2 hqne
        have hlq : path.length < q.length :=
          lt_of_le_of_ne hq1.length_le (fun heq => hqne (hq1.eq_of_length heq).symm)
        have hql : q.length = (path ++ [e.1]).length := by
          have := hq2.length_le
          simp at this ⊢
          omega
        have : q = path ++ [e.1] := hq2.eq_of_length hql
        rw [this]
        exact hp

/-- Structure of the sequential walker's output: same shape properties as the
parallel walker's (no depth-0 special case exists here, so no `maxDepth ≠ 0`
hypothesis is needed). -/
theorem walk_shape_s :
    ∀ (n : Nat) (fs : FS) (depth maxDepth : Nat) (path : List String)
      (out : List (List String)),
      maxDepth - depth ≤ n →
      MainConfig.find_dir_recursive fs path depth maxDepth = some out →
      ∀ p ∈ out, path <+: p ∧ p ≠ path ∧
        p.length ≤ path.length + (maxDepth - depth) + 1 ∧
        (∀ q, path <+: q → q <+: p → q ≠ path → q ∈ out) := by
  intro n
  induction n using Nat.strong_induction_on with
  | _ n ih =>
    intro fs depth maxDepth path out hn h p hp
    unfold MainConfig.find_dir_recursive at h
    cases hrd : fs.readDir path with
    | none => rw [hrd] at h; simp at h
    | some items =>
      rw [hrd] at h
      dsimp only at h
      obtain ⟨e, he, ys, hfe, hpys⟩ := optMapJoin_mem h hp
      obtain ⟨ys', hfe', hsub⟩ := optMapJoin_sub h he
      rw [hfe] at hfe'
      injection hfe' with hys
      subst hys
      by_cases hd : depth < maxDepth
      · rw [dif_pos hd] at hfe
        cases hrec : MainConfig.find_dir_recursive fs (path ++ [e.1]) (depth + 1) maxDepth with
        | none => rw [hrec] at hfe; simp at hfe
        | some rest =>
          rw [hrec] at hfe
          have hys2 : ys = (path ++ [e.1]) :: rest := (Option.some.inj hfe).symm
          subst hys2
          have hpe : path <+: path ++ [e.1] := List.prefix_append _ _
          have ihrec := ih (maxDepth - (depth + 1)) (by omega) fs (depth + 1) maxDepth
            (path ++ [e.1]) rest (le_refl _) hrec
          rcases List.mem_cons.mp hpys with hpe' | hprest
          · subst hpe'
            refine ⟨hpe, by simp, by simp, ?_⟩
            intro q hq1 hq2 hqne
            have hlq : path.length < q.length :=
              lt_of_le_of_ne hq1.length_le (fun heq => hqne (hq1.eq_of_length heq).symm)
            have hql : q.length = (path ++ [e.1]).length := by
              have := hq2.length_le
              simp at this ⊢
              omega
            have : q = path ++ [e.1] := hq2.eq_of_length hql
            rw [this]
            exact hp
          · obtain ⟨hpre, hne, hlen, hcomp⟩ := ihrec p hprest
            have hlower : (path ++ [e.1]).length ≤ p.length := hpre.length_le
            refine ⟨hpe.trans hpre, ?_, ?_, ?_⟩
            · intro hc
              rw [hc] at hlower
              simp at hlower
            · simp at hlen hlower ⊢
              omega
            · intro q hq1 hq2 hqne
              have hlq : path.length < q.length :=
                lt_of_le_of_ne hq1.length_le (fun heq => hqne (hq1.eq_of_length heq).symm)
              by_cases hql : q.length ≤ path.length + 1
              · have hq3 : q <+: path ++ [e.1] :=
                  List.prefix_of_prefix_length_le hq2 hpre (by simp; omega)
                have hqeq : q = path ++ [e.1] := hq3.eq_of_length (by simp; omega)
                rw [hqeq]
                exact hsub (by simp)
              · have hq3 : path ++ [e.1] <+: q :=
                  List.prefix_of_prefix_length_le hpre hq2 (by simp; omega)
                have hqne' : q ≠ path ++ [e.1] := by
                  intro hc
                  rw [hc] at hql
                  simp at hql
                exact hsub (List.mem_cons.mpr (Or.inr (hcomp q hq3 hq2 hqne')))
      · rw [dif_neg hd] at hfe
        have hys2 : ys = [path ++ [e.1]] := (Option.some.inj hfe).symm
        subst hys2
        have hpe' : p = path ++ [e.1] := by simpa using hpys
        subst hpe'
        refine ⟨List.prefix_append _ _, by simp, by simp, ?_⟩
        intro q hq1 hq2 hqne
        have hlq : path.length < q.length :=
          lt_of_le_of_ne hq1.length_le (fun heq => hqne (hq1.eq_of_length heq).symm)
        have hql : q.length = (path ++ [e.1]).length := by
          have := hq2.length_le
          simp at this ⊢
          omega
        have : q = path ++ [e.1] := hq2.eq_of_length hql
        rw [this]
        exact hp

/-- With `show_hidden = false` and a positive depth budget, every path the
parallel walker produces has a non-hidden base name. -/
theorem walk_hidden_aux :
    ∀ (n : Nat) (fs : FS) (depth maxDepth : Nat) (path : List String)
      (out : List (List String)),
      maxDepth - depth ≤ n → 1 ≤ maxDepth →
      Config.find_dir_recursive fs false path depth maxDepth = some out →
      ∀ p ∈ out, is_hidden_path p = false := by
  intro n
  induction n using Nat.strong_induction_on with
  | _ n ih =>
    intro fs depth maxDepth path out hn hmax h p hp
    unfold Config.find_dir_recursive at h
    rw [if_neg (by omega)] at h
    cases hrd : fs.readDir path with
    | none => rw [hrd] at h; simp at h
    | some items =>
      rw [hrd] at h
      dsimp only at h
      obtain ⟨e, he, ys, hfe, hpys⟩ := optMapJoin_mem h hp
      have hhid : is_hidden_path (path ++ [e.1]) = false := by
        have := (List.mem_filter.mp he).2
        simpa using this
      by_cases hd : depth < maxDepth
      · rw [dif_pos hd] at hfe
        cases hrec : Config.find_dir_recursive fs false (path ++ [e.1]) (depth + 1) maxDepth with
        | none => rw [hrec] at hfe; simp at hfe
        | some rest =>
          rw [hrec] at hfe
          have hys2 : ys = (path ++ [e.1]) :: rest := (Option.some.inj hfe).symm
          subst hys2
          rcases List.mem_cons.mp hpys with hpe' | hprest
          · rw [hpe']; exact hhid
          · exact ih (maxDepth - (depth + 1)) (by omega) fs (depth + 1) maxDepth
              (path ++ [e.1]) rest (le_refl _) hmax hrec p hprest
      · rw [dif_neg hd] at hfe
        have hys2 : ys = [path ++ [e.1]] := (Option.some.inj hfe).symm
        subst hys2
        have : p = path ++ [e.1] := by simpa using hpys
        rw [this]
        exact hhid

/-- With `show_hidden = true`, every directory entry of the walked directory's
listing (hidden ones included) contributes its own path to the output. -/
theorem walk_show_all_top (fs : FS) (depth maxDepth : Nat) (path : List String)
    (out : List (List String)) (items : List (Option (String × FType)))
    (hmax : maxDepth ≠ 0) (hrd : fs.readDir path = some items)
    (h : Config.find_dir_recursive fs true path depth maxDepth = some out) :
    ∀ it ∈ takeOks items, is_dir it.2 = true → (path ++ [it.1]) ∈ out := by
  intro it hit hdir
  unfold Config.find_dir_recursive at h
  rw [if_neg hmax, hrd] at h
  dsimp only at h
  have hkept : it ∈ ((takeOks items).filter (fun e => is_dir e.2)).filter
      (fun e => if true then true else !(is_hidden_path (path ++ [e.1]))) := by
    refine List.mem_filter.mpr ⟨List.mem_filter.mpr ⟨hit, hdir⟩, by simp⟩
  obtain ⟨ys, hfe, hsub⟩ := optMapJoin_sub h hkept
  by_cases hd : depth < maxDepth
  · rw [dif_pos hd] at hfe
    cases hrec : Config.find_dir_recursive fs true (path ++ [it.1]) (depth + 1) maxDepth with
    | none => rw [hrec] at hfe; simp at hfe
    | some rest =>
      rw [hrec] at hfe
      have hys : ys = (path ++ [it.1]) :: rest := (Option.some.inj hfe).symm
      subst hys
      exact hsub (by simp)
  · rw [dif_neg hd] at hfe
    have hys : ys = [path ++ [it.1]] := (Option.some.inj hfe).symm
    subst hys
    exact hsub (by simp)

/-- For positive depth budgets, with `show_hidden = true` and no errored
directory entries anywhere, the sequential and the parallel walker return the
same result. -/
theorem walk_equiv_aux :
    ∀ (n : Nat) (fs : FS) (depth maxDepth : Nat) (path : List String),
      maxDepth - depth ≤ n → 1 ≤ maxDepth →
      (∀ q items, fs.readDir q = some items → ∀ it ∈ items, it ≠ none) →
      MainConfig.find_dir_recursive fs path depth maxDepth =
        Config.find_dir_recursive fs true path depth maxDepth := by
  intro n
  induction n using Nat.strong_induction_on with
  | _ n ih =>
    intro fs depth maxDepth path hn hmax hok
    unfold MainConfig.find_dir_recursive Config.find_dir_recursive
    rw [if_neg (by omega)]
    cases hrd : fs.readDir path with
    | none => rfl
    | some items =>
      dsimp only
      have hto : takeOks items = skipErrs items := takeOks_eq_skipErrs (hok path items hrd)
      rw [hto, show (((skipErrs items).filter (fun e => is_dir e.2)).filter
          (fun (e : String × FType) => if true then true else !(is_hidden_path (path ++ [e.1]))))
        = (skipErrs items).filter (fun e => is_dir e.2) by simp]
      apply optMapJoin_congr
      intro e he
      by_cases hd : depth < maxDepth
      · rw [dif_pos hd, dif_pos hd,
          ih (maxDepth - (depth + 1)) (by omega) fs (depth + 1) maxDepth (path ++ [e.1])
            (le_refl _) hmax hok]
      · rw [dif_neg hd, dif_neg hd]

/-! ## Concrete fixtures used by witnesses and counterexamples -/

/-- An environment with no variables, a home directory, and no user lookup. -/
def env0 : Env := ⟨fun _ => none, some "/home/user", fun _ => none⟩

/-- Default settings with depth 1. -/
def st0 : Settings := ⟨1, none⟩

/-- A filesystem where only `/ok` exists, containing one subdirectory `a`. -/
def fsW : FS :=
  ⟨fun p => decide (p = ["/ok"]),
   fun p =>
     if p = ["/ok"] then some [some ("a", FType.dir)]
     else if p = ["/ok", "a"] then some []
     else none⟩

/-- A fully-listable filesystem whose root `r` has one subdirectory `a`. -/
def fsE : FS :=
  ⟨fun _ => true,
   fun p => if p = ["r"] then some [some ("a", FType.dir)] else some []⟩

/-- A filesystem where `r` lists subdirectories `a` and `b`, but listing
`r/a` fails. -/
def fsD : FS :=
  ⟨fun _ => true,
   fun p =>
     if p = ["r"] then some [some ("a", FType.dir), some ("b", FType.dir)]
     else if p = ["r", "a"] then none
     else some []⟩

/-- A filesystem whose root `r` has a hidden subdirectory `.b` and a plain
subdirectory `a`. -/
def fsH : FS :=
  ⟨fun _ => true,
   fun p =>
     if p = ["r"] then some [some (".b", FType.dir), some ("a", FType.dir)]
     else some []⟩

/-! ## Claim C1 — missing roots -/

/-- C1 (counterexample): the claim says `find_dirs` never fails on a missing
root and returns exactly the present root's candidates, but
`Config::find_dirs` of `src/config.rs` hits `panic!("Path does not exist")`
on the missing root (`none` = panic), rather than producing the present
root's candidates. -/
theorem claim_C1_counterexample :
    Config.find_dirs env0 fsW ⟨st0, [.Simple "/miss", .Simple "/ok"]⟩ = none ∧
    Config.find_dirs env0 fsW ⟨st0, [.Simple "/ok"]⟩ = some (.ok [["/ok", "a"]]) ∧
    (none : Option (Except Error (List (List String)))) ≠ some (.ok [["/ok", "a"]]) := by
  refine ⟨?_, ?_, by simp⟩
  · simp [Config.find_dirs, optMapJoin, SearchPath.expand, expandStr, expandTilde,
      expandVarsAux, env0, fsW, SearchPath.path]
  · simp [Config.find_dirs, optMapJoin, SearchPath.expand, expandStr, expandTilde,
      expandVarsAux, env0, fsW, SearchPath.path, SearchPath.show_hidden, SearchPath.depth,
      st0, Config.find_dir_recursive, takeOks, is_dir, is_hidden_path]

/-- C1 (amended): the sequential `find_dirs` of `src/main.rs` skips a root
that expands successfully but does not exist (`continue`), so running it over
`[root_missing, root_present]` returns exactly its result over
`[root_present]`; the parallel `find_dirs` of `src/config.rs` instead panics
on the missing root. -/
theorem claim_C1_amended (env : Env) (fs : FS) (st : Settings)
    (m p m' : MainSearchPath)
    (hm : MainSearchPath.expand env m = .ok m')
    (hmiss : fs.pathExists [m'.path] = false) :
    MainConfig.find_dirs env fs ⟨st, [m, p]⟩ = MainConfig.find_dirs env fs ⟨st, [p]⟩ := by
  unfold MainConfig.find_dirs
  dsimp only
  rw [collectExcept, hm]
  cases hp : collectExcept (MainSearchPath.expand env) [p] with
  | error e => rfl
  | ok ps =>
    dsimp only
    rw [optMapJoin]
    cases m' with
    | Simple s =>
      simp only [MainSearchPath.path] at hmiss
      simp only [hmiss, Bool.false_eq_true, if_false]
      cases optMapJoin _ ps with
      | none => rfl
      | some zs => simp
    | Complex pa d =>
      simp only [MainSearchPath.path] at hmiss
      simp only [hmiss, Bool.false_eq_true, if_false]
      cases optMapJoin _ ps with
      | none => rfl
      | some zs => simp

/-- C1 (witness): concrete instance of the amended claim. -/
theorem claim_C1_witness :
    MainSearchPath.expand env0 (.Simple "/miss") = .ok (.Simple "/miss") ∧
    fsW.pathExists [(MainSearchPath.Simple "/miss").path] = false ∧
    MainConfig.find_dirs env0 fsW ⟨st0, [.Simple "/miss", .Simple "/ok"]⟩ =
      MainConfig.find_dirs env0 fsW ⟨st0, [.Simple "/ok"]⟩ := by
  have h1 : MainSearchPath.expand env0 (.Simple "/miss") = .ok (.Simple "/miss") := by
    simp [MainSearchPath.expand, expandStr, expandTilde, expandVarsAux, env0]
  have h2 : fsW.pathExists [(MainSearchPath.Simple "/miss").path] = false := by
    simp [fsW, MainSearchPath.path]
  exact ⟨h1, h2, claim_C1_amended env0 fsW st0 _ _ _ h1 h2⟩

/-! ## Claim C2 — expansion errors -/

/-- `collect::<Result<...>>` returns the first error when everything before it
succeeded. -/
theorem collectExcept_error {α β ε : Type} {f : α → Except ε β} :
    ∀ (pre : List α) (sp : α) (post : List α) (e : ε),
      (∀ q ∈ pre, ∃ q', f q = .ok q') → f sp = .error e →
      collectExcept f (pre ++ sp :: post) = .error e := by
  intro pre
  induction pre with
  | nil =>
    intro sp post e _ hsp
    rw [List.nil_append, collectExcept, hsp]
  | cons a pre ih =>
    intro sp post e hpre hsp
    obtain ⟨a', ha'⟩ := hpre a (by simp)
    rw [List.cons_append, collectExcept, ha',
      ih sp post e (fun q hq => hpre q (by simp [hq])) hsp]

/-- C2 (amended): when some configured path fails expansion, the sequential
`find_dirs` of `src/main.rs` surfaces the first `ExpansionError` as the
run-level `Err`; the parallel `find_dirs` of `src/config.rs` instead panics
on it (`path.unwrap()`), converting the misconfiguration into a crash. -/
theorem claim_C2_amended (env : Env) (fs : FS) (st : Settings)
    (pre : List MainSearchPath) (sp : MainSearchPath) (post : List MainSearchPath)
    (e : Error)
    (hpre : ∀ q ∈ pre, ∃ q', MainSearchPath.expand env q = .ok q')
    (hsp : MainSearchPath.expand env sp = .error e) :
    MainConfig.find_dirs env fs ⟨st, pre ++ sp :: post⟩ = some (.error e) := by
  unfold MainConfig.find_dirs
  rw [collectExcept_error pre sp post e hpre hsp]

/-- C2 (witness): a root referencing the undefined variable `U` makes the
sequential `find_dirs` return the `EnvError`. -/
theorem claim_C2_witness :
    MainConfig.find_dirs env0 fsW ⟨st0, [.Simple "$U"]⟩ =
      some (.error (.EnvError "U")) :=
  claim_C2_amended env0 fsW st0 [] (.Simple "$U") [] (.EnvError "U")
    (by simp)
    (by simp [MainSearchPath.expand, expandStr, expandTilde, expandVarsAux,
      isVarChar, lbrace, env0])

/-- C2 (counterexample): the claim says the `ExpansionError` is returned as
the run-level error result and not converted into a crash, but
`Config::find_dirs` of `src/config.rs` panics (`path.unwrap()`) instead of
returning `Err`. -/
theorem claim_C2_counterexample :
    Config.find_dirs env0 fsW ⟨st0, [.Simple "$U"]⟩ = none ∧
    (none : Option (Except Error (List (List String)))) ≠
      some (.error (.EnvError "U")) := by
  refine ⟨?_, by simp⟩
  simp [Config.find_dirs, optMapJoin, SearchPath.expand, expandStr, expandTilde,
    expandVarsAux, isVarChar, lbrace, env0]

/-! ## Claim C3 — directory-listing failures -/

/-- C3 (amended): a directory whose listing fails is not recovered as "no
entries": both walkers panic when `read_dir` fails at the directory they are
called on (the parallel walker except at `max_depth = 0`, where no listing
happens), and the panic aborts the whole walk, wiping sibling subtrees'
results.  Only per-entry read failures are tolerated: the sequential walker's
`.flatten()` skips them, the parallel walker's `map_while(Result::ok)` stops
at the first one. -/
theorem claim_C3_amended (fs : FS) (sh : Bool) (path : List String)
    (depth maxDepth : Nat) (h : fs.readDir path = none) :
    MainConfig.find_dir_recursive fs path depth maxDepth = none ∧
    (maxDepth ≠ 0 → Config.find_dir_recursive fs sh path depth maxDepth = none) ∧
    (∀ (l : List (Option (String × FType))),
      skipErrs (none :: l) = skipErrs l ∧ takeOks (none :: l) = []) := by
  refine ⟨?_, ?_, fun l => ⟨rfl, rfl⟩⟩
  · unfold MainConfig.find_dir_recursive
    rw [h]
  · intro hmax
    unfold Config.find_dir_recursive
    rw [if_neg hmax, h]

/-- C3 (witness): concrete instance — listing `r/a` fails, so walking it
panics, in both walkers. -/
theorem claim_C3_witness :
    MainConfig.find_dir_recursive fsD ["r", "a"] 1 2 = none ∧
    (2 ≠ 0 → Config.find_dir_recursive fsD false ["r", "a"] 1 2 = none) ∧
    (∀ (l : List (Option (String × FType))),
      skipErrs (none :: l) = skipErrs l ∧ takeOks (none :: l) = []) :=
  claim_C3_amended fsD false ["r", "a"] 1 2 (by simp [fsD])

/-- C3 (counterexample): the claim says a failing listing contributes no
entries, never aborts the walk, and leaves sibling subtrees unaffected; but
with `r` containing `a` and `b` and the listing of `r/a` failing, the
sequential walk of `r` panics (`none`) instead of returning the surviving
candidates `r/a`, `r/b`. -/
theorem claim_C3_counterexample :
    MainConfig.find_dir_recursive fsD ["r"] 1 2 = none ∧
    (none : Option (List (List String))) ≠ some [["r", "a"], ["r", "b"]] := by
  refine ⟨?_, by simp⟩
  simp [MainConfig.find_dir_recursive, fsD, skipErrs, optMapJoin, is_dir]

/-! ## Claim C4 — depth budget 0 -/

/-- C4 (amended): `Config::find_dir_recursive` of `src/config.rs` with
`max_depth == 0` returns exactly the singleton of the root, for every
filesystem — in particular without listing the root's contents (the result is
the same for every `fs`).  The sequential walker of `src/main.rs` has no such
case (see the counterexample). -/
theorem claim_C4 (fs : FS) (sh : Bool) (path : List String) (depth : Nat) :
    Config.find_dir_recursive fs sh path depth 0 = some [path] := by
  unfold Config.find_dir_recursive
  rw [if_pos rfl]

/-- C4 (counterexample): the claim says the walker at `max_depth == 0` yields
the root itself unmodified and performs no listing; `main.rs`'s
`find_dir_recursive` instead lists the root and returns its immediate
directory entries. -/
theorem claim_C4_counterexample :
    MainConfig.find_dir_recursive fsE ["r"] 1 0 = some [["r", "a"]] ∧
    some [["r", "a"]] ≠ some [["r"]] := by
  refine ⟨?_, by simp⟩
  simp [MainConfig.find_dir_recursive, fsE, skipErrs, optMapJoin, is_dir]

/-! ## Claim C5 — hidden-entry filtering -/

/-- C5 (amended): `Simple` search paths always resolve visibility to `false`;
with `show_hidden = false` and a positive depth budget no path produced by the
parallel walker has a base name starting with `'.'`; and with
`show_hidden = true` hidden directory entries are included when otherwise
eligible (every directory entry of the walked root's listing appears in the
output).  At `max_depth = 0`, however, the walker returns the root itself even
when the root's own base name is hidden, and the sequential walker of
`main.rs` performs no hidden filtering at all. -/
theorem claim_C5_amended :
    (∀ s, SearchPath.show_hidden (.Simple s) = false) ∧
    (∀ (fs : FS) (path : List String) (depth maxDepth : Nat) (out : List (List String)),
      1 ≤ maxDepth →
      Config.find_dir_recursive fs false path depth maxDepth = some out →
      ∀ p ∈ out, is_hidden_path p = false) ∧
    (∀ (fs : FS) (path : List String) (depth maxDepth : Nat) (out : List (List String))
      (items : List (Option (String × FType))),
      maxDepth ≠ 0 → fs.readDir path = some items →
      Config.find_dir_recursive fs true path depth maxDepth = some out →
      ∀ it ∈ takeOks items, is_dir it.2 = true → (path ++ [it.1]) ∈ out) := by
  refine ⟨fun s => rfl, ?_, ?_⟩
  · intro fs path depth maxDepth out hmax h
    exact walk_hidden_aux (maxDepth - depth) fs depth maxDepth path out (le_refl _) hmax h
  · intro fs path depth maxDepth out items hmax hrd h
    exact walk_show_all_top fs depth maxDepth path out items hmax hrd h

/-- C5 (witness): concrete instances — with hidden filtering on, walking `r`
(children `.b`, `a`) yields only `r/a` and indeed no hidden base names; with
`show_hidden = true` the hidden entry `.b` is included. -/
theorem claim_C5_witness :
    (∀ p ∈ [["r", "a"]], is_hidden_path p = false) ∧
    (["r", ".b"] : List String) ∈ [["r", ".b"], ["r", "a"]] := by
  constructor
  · exact claim_C5_amended.2.1 fsH ["r"] 1 1 [["r", "a"]] (by omega)
      (by simp [Config.find_dir_recursive, fsH, takeOks, optMapJoin, is_dir,
        is_hidden_path])
  · exact claim_C5_amended.2.2 fsH ["r"] 1 1 [["r", ".b"], ["r", "a"]]
      [some (".b", FType.dir), some ("a", FType.dir)] (by omega) (by simp [fsH])
      (by simp [Config.find_dir_recursive, fsH, takeOks, optMapJoin, is_dir,
        is_hidden_path])
      (".b", FType.dir) (by simp [takeOks]) rfl

/-- C5 (counterexample): the claim says that with `show_hidden = false` no
returned path has a hidden base name; but at `max_depth = 0` the parallel
walker returns the root unmodified even when the root itself is hidden. -/
theorem claim_C5_counterexample :
    Config.find_dir_recursive fsH false [".r"] 1 0 = some [[".r"]] ∧
    is_hidden_path [".r"] = true := by
  constructor
  · unfold Config.find_dir_recursive
    rw [if_pos rfl]
  · rfl

/-! ## Claim C6 — depth bound and pre-order completeness -/

/-- C6: for every root walked with depth budget `d > 0` (by either walker),
every produced path properly extends the root by at most `d` components, and
every directory strictly between the root and a produced path is itself
produced. -/
theorem claim_C6 (fs : FS) (sh : Bool) (root : List String) (d : Nat) (hd : 0 < d) :
    (∀ out, Config.find_dir_recursive fs sh root 1 d = some out →
      (∀ p ∈ out, root <+: p ∧ p ≠ root ∧ p.length ≤ root.length + d) ∧
      (∀ p ∈ out, ∀ q, root <+: q → q <+: p → q ≠ root → q ∈ out)) ∧
    (∀ out, MainConfig.find_dir_recursive fs root 1 d = some out →
      (∀ p ∈ out, root <+: p ∧ p ≠ root ∧ p.length ≤ root.length + d) ∧
      (∀ p ∈ out, ∀ q, root <+: q → q <+: p → q ≠ root → q ∈ out)) := by
  constructor
  · intro out h
    have hs := walk_shape_p d fs sh 1 d root out (by omega) (by omega) h
    exact ⟨fun p hp => ⟨(hs p hp).1, (hs p hp).2.1, by have := (hs p hp).2.2.1; omega⟩,
      fun p hp => (hs p hp).2.2.2⟩
  · intro out h
    have hs := walk_shape_s d fs 1 d root out (by omega) h
    exact ⟨fun p hp => ⟨(hs p hp).1, (hs p hp).2.1, by have := (hs p hp).2.2.1; omega⟩,
      fun p hp => (hs p hp).2.2.2⟩

/-- C6 (witness): concrete instance at depth budget 2. -/
theorem claim_C6_witness :
    (0 : Nat) < 2 ∧
    (∀ p ∈ [["r", "a"]], (["r"] : List String) <+: p ∧ p ≠ ["r"] ∧
      p.length ≤ (["r"] : List String).length + 2) := by
  refine ⟨by omega, ?_⟩
  intro p hp
  exact ((claim_C6 fsE false ["r"] 2 (by omega)).1 [["r", "a"]]
    (by simp [Config.find_dir_recursive, fsE, takeOks, optMapJoin, is_dir,
      is_hidden_path])).1 p hp

/-! ## Claim C7 — sequential / parallel equivalence -/

/-- C7 (amended): the sequential walker (`main.rs`) and the parallel walker
(`config.rs`) agree — same output paths — only under these conditions: depth
budget at least 1, the parallel walker's `show_hidden = true`, and no errored
directory entries.  They differ at `max_depth = 0` (the parallel walker
returns the root, the sequential one the root's entries), under hidden
filtering (the sequential walker never filters), and on errored entries (the
sequential walker skips them, the parallel one truncates the rest of the
listing). -/
theorem claim_C7_amended (fs : FS) (path : List String) (depth maxDepth : Nat)
    (h1 : 1 ≤ maxDepth)
    (h2 : ∀ q items, fs.readDir q = some items → ∀ it ∈ items, it ≠ none) :
    MainConfig.find_dir_recursive fs path depth maxDepth =
      Config.find_dir_recursive fs true path depth maxDepth :=
  walk_equiv_aux (maxDepth - depth) fs depth maxDepth path (le_refl _) h1 h2

/-- C7 (witness): concrete instance at depth budget 1. -/
theorem claim_C7_witness :
    (1 : Nat) ≤ 1 ∧
    MainConfig.find_dir_recursive fsE ["r"] 1 1 =
      Config.find_dir_recursive fsE true ["r"] 1 1 := by
  refine ⟨by omega, ?_⟩
  apply claim_C7_amended fsE ["r"] 1 1 (by omega)
  intro q items h it hit
  by_cases hq : q = ["r"]
  · subst hq
    simp [fsE] at h
    subst h
    simp at hit
    simp [hit]
  · simp [fsE, hq] at h
    subst h
    simp at hit

/-- C7 (counterexample): the claim says both walkers produce the same set of
output paths for every root, depth budget and filesystem; at depth budget 0
the sequential walker returns the root's entries while the parallel walker
returns the root itself (whatever its `show_hidden` flag), and with hidden
filtering active (`show_hidden = false`, as every `Simple` root gets) the
parallel walker drops `.b` while the sequential walker keeps it. -/
theorem claim_C7_counterexample :
    (MainConfig.find_dir_recursive fsE ["r"] 1 0 = some [["r", "a"]] ∧
     Config.find_dir_recursive fsE true ["r"] 1 0 = some [["r"]] ∧
     Config.find_dir_recursive fsE false ["r"] 1 0 = some [["r"]] ∧
     some [["r", "a"]] ≠ some [["r"]]) ∧
    (MainConfig.find_dir_recursive fsH ["r"] 1 1 = some [["r", ".b"], ["r", "a"]] ∧
     Config.find_dir_recursive fsH false ["r"] 1 1 = some [["r", "a"]] ∧
     some [["r", ".b"], ["r", "a"]] ≠ some [["r", "a"]]) := by
  refine ⟨⟨?_, ?_, ?_, by simp⟩, ⟨?_, ?_, by simp⟩⟩
  · simp [MainConfig.find_dir_recursive, fsE, skipErrs, optMapJoin, is_dir]
  · unfold Config.find_dir_recursive; rw [if_pos rfl]
  · unfold Config.find_dir_recursive; rw [if_pos rfl]
  · simp [MainConfig.find_dir_recursive, fsH, skipErrs, optMapJoin, is_dir]
  · simp [Config.find_dir_recursive, fsH, takeOks, optMapJoin, is_dir, is_hidden_path]

/-! ## Claim C8 — idempotence of expansion -/

/-- A search path whose path field is fully expanded is a fixed point of
`SearchPath::expand` (config.rs variant). -/
theorem SearchPath_expand_fixed (env : Env) (sp : SearchPath)
    (hn : noSubstTokens sp.path = true) : SearchPath.expand env sp = .ok sp := by
  cases sp with
  | Simple s =>
    simp only [SearchPath.path] at hn
    unfold SearchPath.expand
    dsimp only
    rw [expandStr_fixed env s hn]
  | Complex pa d sh =>
    simp only [SearchPath.path] at hn
    unfold SearchPath.expand
    dsimp only
    rw [expandStr_fixed env pa hn]

/-- A search path whose path field is fully expanded is a fixed point of
`SearchPath::expand` (main.rs variant). -/
theorem MainSearchPath_expand_fixed (env : Env) (sp : MainSearchPath)
    (hn : noSubstTokens sp.path = true) : MainSearchPath.expand env sp = .ok sp := by
  cases sp with
  | Simple s =>
    simp only [MainSearchPath.path] at hn
    unfold MainSearchPath.expand
    dsimp only
    rw [expandStr_fixed env s hn]
  | Complex pa d =>
    simp only [MainSearchPath.path] at hn
    unfold MainSearchPath.expand
    dsimp only
    rw [expandStr_fixed env pa hn]

/-- C8: expansion is idempotent on already-expanded input — when the result of
expanding a search path contains no further substitutable tokens (no leading
`~`, no variable references), expanding twice equals expanding once.  Holds
for both the config.rs and the main.rs variant, uniformly over `Simple` and
`Complex`. -/
theorem claim_C8 (env : Env) :
    (∀ sp sp', SearchPath.expand env sp = .ok sp' →
      noSubstTokens sp'.path = true →
      (SearchPath.expand env sp).bind (SearchPath.expand env) =
        SearchPath.expand env sp) ∧
    (∀ mp mp', MainSearchPath.expand env mp = .ok mp' →
      noSubstTokens mp'.path = true →
      (MainSearchPath.expand env mp).bind (MainSearchPath.expand env) =
        MainSearchPath.expand env mp) := by
  constructor
  · intro sp sp' h hn
    rw [h]
    dsimp only [Except.bind]
    exact SearchPath_expand_fixed env sp' hn
  · intro mp mp' h hn
    rw [h]
    dsimp only [Except.bind]
    exact MainSearchPath_expand_fixed env mp' hn

/-- C8 (witness): concrete instance on the already-expanded path `/ok`. -/
theorem claim_C8_witness :
    SearchPath.expand env0 (.Simple "/ok") = .ok (.Simple "/ok") ∧
    noSubstTokens (SearchPath.Simple "/ok").path = true ∧
    (SearchPath.expand env0 (.Simple "/ok")).bind (SearchPath.expand env0) =
      SearchPath.expand env0 (.Simple "/ok") := by
  have h1 : SearchPath.expand env0 (.Simple "/ok") = .ok (.Simple "/ok") := by
    simp [SearchPath.expand, expandStr, expandTilde, expandVarsAux, env0]
  have h2 : noSubstTokens (SearchPath.Simple "/ok").path = true := by decide
  exact ⟨h1, h2, (claim_C8 env0).1 _ _ h1 h2⟩

/-! ## Claim C9 — session naming -/

/-- C9: for every selected path with a final component, `get_dir_name` returns
that component with every `'.'` replaced by `'_'`, and consequently the
session name handed to the tmux commands never contains a dot. -/
theorem claim_C9 (p : List String) (comp : String) (h : p.getLast? = some comp) :
    get_dir_name p =
      some (String.mk (comp.data.map (fun c => if c = '.' then '_' else c))) ∧
    (∀ s, tmux_session_name p = some s → '.' ∉ s.data) := by
  have hg : get_dir_name p =
      some (String.mk (comp.data.map (fun c => if c = '.' then '_' else c))) := by
    unfold get_dir_name
    rw [h]
  refine ⟨hg, ?_⟩
  intro s hs
  unfold tmux_session_name at hs
  rw [hg] at hs
  injection hs with hs2
  subst hs2
  intro hmem
  have hmem' : '.' ∈ comp.data.map (fun c => if c = '.' then '_' else c) := hmem
  obtain ⟨c, hc, hceq⟩ := List.mem_map.mp hmem'
  by_cases hcd : c = '.'
  · rw [if_pos hcd] at hceq
    exact absurd hceq (by decide)
  · rw [if_neg hcd] at hceq
    exact hcd hceq

/-- C9 (witness): the selected path `proj/v1.2` produces session name `v1_2`,
which contains no dot. -/
theorem claim_C9_witness :
    get_dir_name ["proj", "v1.2"] = some "v1_2" ∧
    (∀ s, tmux_session_name ["proj", "v1.2"] = some s → '.' ∉ s.data) := by
  have h := claim_C9 ["proj", "v1.2"] "v1.2" rfl
  exact ⟨h.1.trans (by decide), h.2⟩

/-! ## Claim C10 — picker-output handling -/

/-- C10 (amended): `run_finder` returns `None` exactly when the picker exits
with a non-success status; when the picker succeeds and its stdout is
non-empty valid UTF-8 whose final byte position is a character boundary (the
final character is a single byte, e.g. the expected trailing newline), it
returns `Some` of the stdout bytes with exactly the final byte removed.  When
the final character is multi-byte the slice panics instead (see the
counterexample). -/
theorem claim_C10_amended (success : Bool) (stdout : List Nat) :
    (run_finder success stdout = some none ↔ success = false) ∧
    (success = true → utf8Valid stdout = true → stdout ≠ [] →
      is_char_boundary stdout (stdout.length - 1) = true →
      run_finder success stdout = some (some (stdout.take (stdout.length - 1)))) := by
  constructor
  · cases success with
    | false => simp [run_finder]
    | true =>
      simp only [run_finder]
      split_ifs <;> simp
  · intro hs hu hne hb
    subst hs
    have hlen : stdout.length ≠ 0 := fun hz => hne (List.length_eq_zero.mp hz)
    simp [run_finder, hu, hb, hlen]

/-- C10 (witness): a successful pick of `h\n` returns `h`; a cancelled pick
returns `None`. -/
theorem claim_C10_witness :
    run_finder true [104, 10] = some (some [104]) ∧
    run_finder false [104, 10] = some none := by
  constructor
  · exact ((claim_C10_amended true [104, 10]).2 rfl (by decide) (by decide)
      (by decide)).trans (by decide)
  · exact (claim_C10_amended false [104, 10]).1.mpr rfl

/-- C10 (counterexample): the claim says success plus non-empty valid UTF-8
stdout suffices for `Some(stdout minus final byte)`; but for stdout `é`
(bytes `C3 A9`, non-empty valid UTF-8) the slice `&s[..s.len() - 1]` falls on
a non-boundary and panics, so `run_finder` neither returns `Some [0xC3]` nor
anything at all. -/
theorem claim_C10_counterexample :
    run_finder true [195, 169] = none ∧
    utf8Valid [195, 169] = true ∧
    ([195, 169] : List Nat) ≠ [] ∧
    (none : Option (Option (List Nat))) ≠ some (some [195]) := by decide

end Tms
